import Mathlib

/-!
Shallow embedding of the dispatch core of the `abot` repository
(`RegisterPackage`, `getPkg`, `callPkg` in the main package), together with
proofs of the spec's testable properties about it.

Conventions of the embedding:
* Go's global mutable map `regPkgs` is threaded explicitly as a value of
  type `Registry`; a Go map assignment becomes `insertKey`.
* Go strings are Lean `String`s; `strings.ToLower`, `strings.Title` and the
  `strings.Split(s, quote)[0]` idiom are modelled character-structurally
  (for the ASCII alphabet, which is all the route keys use) so that every
  definition reduces inside the kernel.
* The RPC client obtained from `rpc.Dial` is an opaque token (`Nat`);
  dialing itself is an external effect and is passed in as an oracle
  `dial : String → Except DialErr Nat`.
* `log.Println` warnings that the spec declares observable (duplicate-key
  warnings in `RegisterPackage`) are collected in an output list; other log
  lines are ignored.
* The remote call `pw.RPCClient.Call` is external; `callPkg` is modelled up
  to the point of the call, recording which method would be invoked and
  with which (route-stamped) message.
-/

namespace Abot

/-- ASCII model of Go `strings.ToLower` on one character (route tokens are
ASCII in this system). -/
def goCharToLower (c : Char) : Char := c.toLower

/-- Model of Go `strings.ToLower`. -/
def goToLower (s : String) : String := ⟨s.data.map goCharToLower⟩

/-- The apostrophe character used as the embedded-literal delimiter in
route tokens. -/
def quoteChar : Char := Char.ofNat 39

/-- Character-list version of the `strings.Split(s, quote)[0]` idiom:
everything before the first quote character. -/
def stripQuoteChars : List Char → List Char
  | [] => []
  | ch :: rest => if ch = quoteChar then [] else ch :: stripQuoteChars rest

/-- Model of `strings.Split(s, quote)[0]`: the token truncated at its first
quote character. -/
def stripQuote (s : String) : String := ⟨stripQuoteChars s.data⟩

/-- ASCII model of Go `strings.isSeparator`: letters, digits and the
underscore are word-internal, everything else separates words. -/
def goIsSeparator (c : Char) : Bool := !(c.isAlpha || c.isDigit || c = Char.ofNat 95)

/-- Character-list worker for `goTitle`; the flag says whether the previous
character was a word separator. -/
def goTitleChars : Bool → List Char → List Char
  | _, [] => []
  | prevSep, ch :: rest =>
    (if prevSep then ch.toUpper else ch) :: goTitleChars (goIsSeparator ch) rest

/-- ASCII model of Go `strings.Title`: the first character of every word is
mapped to upper case (Go seeds the scan with a separator). -/
def goTitle (s : String) : String := ⟨goTitleChars true s.data⟩

/-- Mirror of `pkg.Pkg.Config`: skill identity and network location. -/
structure PkgConfig where
  name : String
  serverAddress : String
  port : Int
  deriving DecidableEq

/-- Mirror of the trigger of `pkg.Pkg`: the command and object vocabulary
the skill declares interest in. -/
structure Trigger where
  commands : List String
  objects : List String
  deriving DecidableEq

/-- Mirror of `pkg.Pkg`. -/
structure Pkg where
  config : PkgConfig
  trigger : Trigger
  deriving DecidableEq

/-- Mirror of `pkg.PkgWrapper`: a registered package together with its
persistent RPC client (opaque token). -/
structure PkgWrapper where
  p : Pkg
  rpcClient : Nat
  deriving DecidableEq

/-- The global `regPkgs` map, threaded explicitly. A missing key is `none`,
matching Go's nil-for-absent map semantics. -/
abbrev Registry := String → Option PkgWrapper

/-- Go map assignment `regPkgs[k] = v`. -/
def insertKey (r : Registry) (k : String) (v : PkgWrapper) : Registry :=
  fun q => if q = k then some v else r q

/-- Mirror of `datatypes.Message.LastResponse`. Modelled from the spec:
the persistence collaborator's record `{route, state}` for the user's
previous turn (`shared/datatypes` is not part of the provided sources). -/
structure Resp where
  route : String
  state : String
  deriving DecidableEq

/-- Mirror of `datatypes.StructuredInput`: the recognized command and
object tokens of an utterance. -/
structure StructuredInput where
  commands : List String
  objects : List String
  deriving DecidableEq

/-- Mirror of the fields of `datatypes.Message` the dispatch core reads or
writes: the (optional) user, the structured input, the (optional, one-shot)
last response, and the `Route` field `callPkg` stamps before the RPC call.
Modelled from the spec where `shared/datatypes` is missing from the
sources: `GetLastResponse` is a read-only fetch of the user's persisted
`{route, state} | absent`, represented by the `lastResponse` field being
already populated (`none` = absent); database errors are not modelled. -/
structure Msg where
  user : Option Nat
  input : StructuredInput
  lastResponse : Option Resp
  route : String
  deriving DecidableEq

/-- The error value `ErrMissingPackage`. -/
inductive GetPkgErr where
  | missingPackage
  deriving DecidableEq

/-- Result of `getPkg`, mirroring Go's `(pw, route, lastRoute, err)` return
convention: every `nil`-error return of the source carries a non-nil `pw`,
and every non-nil-error return carries a nil `pw`, so the four-tuple is an
honest sum. -/
inductive GetPkgRes where
  | ok (pw : PkgWrapper) (route : String) (lastRoute : Bool)
  | fail (route : String) (lastRoute : Bool) (e : GetPkgErr)
  deriving DecidableEq

/-- The mutable locals `p`, `route`, `shortRoute` of `getPkg`'s labelled
loop, plus whether `break Loop` was taken. -/
structure LoopSt where
  p : Option PkgWrapper
  route : String
  shortRoute : String
  broke : Bool
  deriving DecidableEq

/-- Inner loop of `getPkg` (`for _, o := range si.Objects`), for a fixed
already-quote-stripped command token `c`: try the lowercased compound key
(exact match breaks the labelled loop), else look up the bare object token
(original case, quote-stripped only) as a fallback candidate. -/
def objLoop (r : Registry) (c : String) : LoopSt → List String → LoopSt
  | st, [] => st
  | st, o :: os =>
    let o1 := stripQuote o
    let rt := goToLower (c ++ "_" ++ o1)
    match r rt with
    | some pw => { p := some pw, route := rt, shortRoute := "", broke := true }
    | none =>
      match r o1 with
      | some pw => objLoop r c { p := some pw, route := rt, shortRoute := o1, broke := false } os
      | none => objLoop r c { p := none, route := rt, shortRoute := st.shortRoute, broke := false } os

/-- Outer loop of `getPkg` (`Loop: for _, c := range si.Commands`): strip
the command token at its first quote, run the object loop, and if no exact
match broke out, look up the bare command key (original case) as a
fallback candidate — note the pointer `p` is overwritten even on a miss,
exactly as in the source. -/
def cmdLoop (r : Registry) (os : List String) : LoopSt → List String → LoopSt
  | st, [] => st
  | st, c0 :: cs =>
    let c := stripQuote c0
    let st1 := objLoop r c st os
    if st1.broke then st1
    else
      match r c with
      | some pw => cmdLoop r os { st1 with p := some pw, shortRoute := c } cs
      | none => cmdLoop r os { st1 with p := none } cs

/-- Mirror of `getPkg`. Returns the result and the message as left behind
(the source nils out `m.LastResponse` after consuming it as a fallback).
`m.GetLastResponse(db)` is modelled from the spec as the read-only fetch
that populated `m.lastResponse` (absent = `none`); its database-error
branch is not modelled. -/
def getPkg (r : Registry) (m : Msg) : GetPkgRes × Msg :=
  match m.user with
  | none =>
    match r "onboard" with
    | some pw => (.ok pw "onboard" false, m)
    | none => (.fail "onboard" false .missingPackage, m)
  | some _ =>
    let si := m.input
    let st := cmdLoop r si.objects { p := none, route := "", shortRoute := "", broke := false } si.commands
    let route := if st.shortRoute.length > 0 then st.shortRoute else st.route
    match st.p with
    | some pw => (.ok pw route false, m)
    | none =>
      match m.lastResponse with
      | none => (.fail route false .missingPackage, m)
      | some lr =>
        match r lr.route with
        | none => (.fail lr.route true .missingPackage, m)
        | some pw => (.ok pw lr.route false, { m with lastResponse := none })

/-- Outcome of `callPkg`, stopping at the external RPC boundary: either the
early error return (package name, route, error — the source's error paths
all carry a nil `pw`, so the name is empty), or the remote method that
would be invoked with the route-stamped message. -/
inductive CallOutcome where
  | failed (pname : String) (route : String) (e : GetPkgErr)
  | called (method : String) (pname : String) (route : String)
  deriving DecidableEq

/-- Mirror of `callPkg` up to the external `pw.RPCClient.Call`: resolve via
`getPkg`, choose `.FollowUp` when context was already added, the resolution
flagged last-route, or the utterance has zero command tokens, else `.Run`;
stamp the resolved route onto the message. The transport call itself and
its reply are external and not modelled. -/
def callPkg (r : Registry) (m : Msg) (ctxAdded : Bool) : CallOutcome × Msg :=
  match getPkg r m with
  | (.fail route _ e, m1) => (.failed "" route e, m1)
  | (.ok pw route lastRoute, m1) =>
    let c := goTitle pw.p.config.name
    let c := if ctxAdded || lastRoute || m1.input.commands.length == 0
      then c ++ ".FollowUp" else c ++ ".Run"
    (.called c pw.p.config.name route, { m1 with route := route })

/-- An error from `rpc.Dial` (opaque). -/
structure DialErr where
  id : Nat
  deriving DecidableEq

/-- The address `RegisterPackage` dials: `ServerAddress + ":" + Itoa(Port+1)`. -/
def dialAddr (p : Pkg) : String :=
  p.config.serverAddress ++ ":" ++ toString (p.config.port + 1)

/-- The wrapper `RegisterPackage` inserts for every key of one
registration. -/
def regWrap (p : Pkg) (cl : Nat) : PkgWrapper := ⟨p, cl⟩

/-- One step of `RegisterPackage`'s object loop: build the lowercased
compound key, warn (skill name, key) if it is already present, then
overwrite. -/
def insertObj (p : Pkg) (cl : Nat) (c : String) (a : Registry × List (String × String))
    (o : String) : Registry × List (String × String) :=
  let s := goToLower (c ++ "_" ++ o)
  let ws := if (a.1 s).isSome then a.2 ++ [(p.config.name, s)] else a.2
  (insertKey a.1 s (regWrap p cl), ws)

/-- One step of `RegisterPackage`'s command loop: lowercase the command,
run the object loop, then insert the bare command key — with no duplicate
check, exactly as in the source. -/
def insertCmd (p : Pkg) (cl : Nat) (a : Registry × List (String × String))
    (c0 : String) : Registry × List (String × String) :=
  let c := goToLower c0
  let a1 := p.trigger.objects.foldl (insertObj p cl c) a
  (insertKey a1.1 c (regWrap p cl), a1.2)

/-- Mirror of `RegisterPackage`: dial the skill's RPC endpoint at
`host:port+1` (external oracle); on failure return the error with the
registry untouched; on success insert every lowercased compound
`command_object` key and every lowercased bare command key, collecting the
duplicate-key warnings the source logs. -/
def registerPackage (dial : String → Except DialErr Nat) (p : Pkg) (r : Registry) :
    Registry × List (String × String) × Option DialErr :=
  match dial (dialAddr p) with
  | .error e => (r, [], some e)
  | .ok cl =>
    let a := p.trigger.commands.foldl (insertCmd p cl) (r, [])
    (a.1, a.2, none)

/-! ### Statement apparatus

`specFirstCompoundInner` / `specFirstCompound` formalise the phrase "the
first (command, object) pair, in nested iteration order (commands outer,
objects inner, tokens truncated at their first quote character), whose
lowercased compound key has a registry entry"; they are used only to state
claims about `getPkg`, which remains the source-derived definition. -/

/-- First object in `os` whose compound key with the (already stripped)
command `c` is registered, with that key. -/
def specFirstCompoundInner (r : Registry) (c : String) : List String → Option (String × PkgWrapper)
  | [] => none
  | o :: os =>
    let k := goToLower (c ++ "_" ++ stripQuote o)
    match r k with
    | some pw => some (k, pw)
    | none => specFirstCompoundInner r c os

/-- First (command, object) pair in nested iteration order whose compound
key is registered, with that key. -/
def specFirstCompound (r : Registry) (os : List String) : List String → Option (String × PkgWrapper)
  | [] => none
  | c :: cs =>
    match specFirstCompoundInner r (stripQuote c) os with
    | some x => some x
    | none => specFirstCompound r os cs

/-! ### Unfolding lemmas for `getPkg` -/

/-- With no associated user, `getPkg` is the onboarding lookup. -/
theorem getPkg_user_none (r : Registry) (m : Msg) (hu : m.user = none) :
    getPkg r m =
      (match r "onboard" with
       | some pw => (.ok pw "onboard" false, m)
       | none => (.fail "onboard" false .missingPackage, m)) := by
  unfold getPkg
  rw [hu]

/-- With an associated user, `getPkg` is the nested loop followed by the
last-response fallback. -/
theorem getPkg_user_some (r : Registry) (m : Msg) (u : Nat) (hu : m.user = some u) :
    getPkg r m =
      (let st := cmdLoop r m.input.objects ⟨none, "", "", false⟩ m.input.commands
       let route := if st.shortRoute.length > 0 then st.shortRoute else st.route
       match st.p with
       | some pw => (.ok pw route false, m)
       | none =>
         match m.lastResponse with
         | none => (.fail route false .missingPackage, m)
         | some lr =>
           match r lr.route with
           | none => (.fail lr.route true .missingPackage, m)
           | some pw => (.ok pw lr.route false, { m with lastResponse := none })) := by
  unfold getPkg
  rw [hu]

/-! ### Concrete instances used by counterexamples, failing inputs and
witnesses -/

/-- A sample skill: "weather", trigger commands `["get"]`, objects
`["forecast"]`. -/
def weatherPkg : Pkg := ⟨⟨"weather", "localhost", 4000⟩, ⟨["get"], ["forecast"]⟩⟩

/-- The weather skill as registered, with RPC client token 7. -/
def weatherWrap : PkgWrapper := ⟨weatherPkg, 7⟩

/-- A second sample skill, registered under the bare key "x". -/
def xWrap : PkgWrapper := ⟨⟨⟨"xskill", "h", 1⟩, ⟨["x"], []⟩⟩, 1⟩

/-- Registry holding only the compound key "get_forecast". -/
def regGetForecast : Registry := fun k => if k = "get_forecast" then some weatherWrap else none

/-- Registry holding only the bare key "x". -/
def regBareX : Registry := fun k => if k = "x" then some xWrap else none

/-! ### Loop lemmas -/

/-- If some object in `os` gives a registered compound key, the object loop
ends broken-out on the first such key, whatever state it started in. -/
theorem objLoop_compound (r : Registry) (c : String) (k : String) (e : PkgWrapper) :
    ∀ (os : List String) (st : LoopSt), specFirstCompoundInner r c os = some (k, e) →
      objLoop r c st os = ⟨some e, k, "", true⟩ := by
  intro os
  induction os with
  | nil => intro st h; exact Option.noConfusion h
  | cons o os ih =>
    intro st h
    simp only [specFirstCompoundInner] at h
    simp only [objLoop]
    cases hr : r (goToLower (c ++ "_" ++ stripQuote o)) with
    | some pw =>
      simp only [hr, Option.some.injEq, Prod.mk.injEq] at h
      obtain ⟨hk, he⟩ := h
      subst hk; subst he
      simp only [hr]
    | none =>
      rw [hr] at h
      cases hb : r (stripQuote o) <;> exact ih _ h

/-- If no object in `os` gives a registered compound key, the object loop
does not break out. -/
theorem objLoop_not_broke (r : Registry) (c : String) :
    ∀ (os : List String) (st : LoopSt), specFirstCompoundInner r c os = none →
      st.broke = false → (objLoop r c st os).broke = false := by
  intro os
  induction os with
  | nil => intro st _ hb; exact hb
  | cons o os ih =>
    intro st h hb
    simp only [specFirstCompoundInner] at h
    simp only [objLoop]
    cases hr : r (goToLower (c ++ "_" ++ stripQuote o)) with
    | some pw => rw [hr] at h; exact Option.noConfusion h
    | none =>
      rw [hr] at h
      cases hob : r (stripQuote o) <;> exact ih _ h rfl

/-- If some (command, object) pair gives a registered compound key, the
labelled loop ends broken-out on the first such key. -/
theorem cmdLoop_compound (r : Registry) (os : List String) (k : String) (e : PkgWrapper) :
    ∀ (cs : List String) (st : LoopSt), st.broke = false →
      specFirstCompound r os cs = some (k, e) →
      cmdLoop r os st cs = ⟨some e, k, "", true⟩ := by
  intro cs
  induction cs with
  | nil => intro st _ h; exact Option.noConfusion h
  | cons c cs ih =>
    intro st hb h
    simp only [specFirstCompound] at h
    simp only [cmdLoop]
    cases hin : specFirstCompoundInner r (stripQuote c) os with
    | some x =>
      rw [hin] at h
      have hx : x = (k, e) := Option.some.inj h
      subst hx
      rw [objLoop_compound r (stripQuote c) k e os st hin]
      rfl
    | none =>
      rw [hin] at h
      have hnb : (objLoop r (stripQuote c) st os).broke = false :=
        objLoop_not_broke r (stripQuote c) os st hin hb
      rw [if_neg (by rw [hnb]; exact Bool.false_ne_true)]
      cases hc : r (stripQuote c) with
      | some pw => exact ih _ (by simpa using hnb) h
      | none => exact ih _ (by simpa using hnb) h

/-- With no compound hit anywhere, the pointer `p` left by the labelled
loop is exactly the registry entry of the *last* command's bare
(quote-stripped) key — the bare lookup of each later command overwrites
`p` even on a miss — and on a hit the fallback key is that bare key. -/
theorem cmdLoop_no_compound_last (r : Registry) (os : List String) (clast : String) :
    ∀ (init : List String) (st : LoopSt), st.broke = false →
      specFirstCompound r os (init ++ [clast]) = none →
      ((cmdLoop r os st (init ++ [clast])).p = r (stripQuote clast)
       ∧ ∀ pw, r (stripQuote clast) = some pw →
          (cmdLoop r os st (init ++ [clast])).shortRoute = stripQuote clast) := by
  intro init
  induction init with
  | nil =>
    intro st hb h
    simp only [List.nil_append] at h ⊢
    simp only [specFirstCompound] at h
    cases hin : specFirstCompoundInner r (stripQuote clast) os with
    | some x => rw [hin] at h; exact Option.noConfusion h
    | none =>
      have hnb : (objLoop r (stripQuote clast) st os).broke = false :=
        objLoop_not_broke r (stripQuote clast) os st hin hb
      simp only [cmdLoop]
      rw [if_neg (by rw [hnb]; exact Bool.false_ne_true)]
      cases hc : r (stripQuote clast) with
      | some pw =>
        refine ⟨rfl, ?_⟩
        intro pw2 _
        rfl
      | none =>
        refine ⟨rfl, ?_⟩
        intro pw2 h2
        exact Option.noConfusion h2
  | cons c init ih =>
    intro st hb h
    simp only [List.cons_append] at h ⊢
    simp only [specFirstCompound] at h
    cases hin : specFirstCompoundInner r (stripQuote c) os with
    | some x => rw [hin] at h; exact Option.noConfusion h
    | none =>
      rw [hin] at h
      have hnb : (objLoop r (stripQuote c) st os).broke = false :=
        objLoop_not_broke r (stripQuote c) os st hin hb
      simp only [cmdLoop]
      rw [if_neg (by rw [hnb]; exact Bool.false_ne_true)]
      cases hc : r (stripQuote c) with
      | some pw => exact ih _ (by simpa using hnb) h
      | none => exact ih _ (by simpa using hnb) h

/-- Nonempty strings have positive length. -/
theorem string_length_pos_of_ne (s : String) (h : s ≠ "") : 0 < s.length := by
  cases s with
  | mk l =>
    cases l with
    | nil => exact absurd rfl h
    | cons a t => simp [String.length]

/-! ### More concrete instances -/

/-- A skill registered under the bare command key "get" only. -/
def getWrap : PkgWrapper := ⟨⟨⟨"getter", "h", 2⟩, ⟨["get"], []⟩⟩, 2⟩

/-- Registry holding only the bare command key "get". -/
def regBareGet : Registry := fun k => if k = "get" then some getWrap else none

/-- Registry holding the compound key "get_forecast" and the bare key
"hello". -/
def regTwo : Registry :=
  fun k => if k = "get_forecast" then some weatherWrap
    else if k = "hello" then some xWrap else none

/-- Registry holding only the key "onboard". -/
def regOnboard : Registry := fun k => if k = "onboard" then some xWrap else none

/-- Utterance whose only fallback candidate is the bare object "x",
recorded and then clobbered by the bare-command miss of the same pass. -/
def msgBareObj : Msg := ⟨some 1, ⟨["a"], ["x"]⟩, none, ""⟩

/-- Utterance with an unmatched command and a LastResponse pointing at
"get_forecast". -/
def msgHello : Msg := ⟨some 1, ⟨["hello"], []⟩, some ⟨"get_forecast", "s"⟩, ""⟩

/-- Utterance whose second command has a registered bare key, after an
unmatched first command; carries a stale LastResponse that must not be
consulted. -/
def msgTwoCmds : Msg := ⟨some 1, ⟨["a", "get"], ["x"]⟩, some ⟨"zzz", "s"⟩, ""⟩

/-- Utterance with a bare-key fallback candidate available for its first
command and an exact compound match for its second. -/
def msgHelloGet : Msg := ⟨some 1, ⟨["hello", "get"], ["forecast"]⟩, none, ""⟩

/-- Utterance with no associated user. -/
def msgNoUser : Msg := ⟨none, ⟨["get"], ["forecast"]⟩, none, ""⟩

/-- Utterance with an exact compound match for "get_forecast". -/
def msgGetForecast : Msg := ⟨some 1, ⟨["get"], ["forecast"]⟩, none, ""⟩

/-- Mixed-case utterance tokens for the case-sensitivity claim. -/
def msgMixedCase : Msg := ⟨some 1, ⟨["Get"], ["Forecast"]⟩, none, ""⟩

/-- Registry holding only the lowercase bare key "forecast". -/
def regBareForecast : Registry := fun k => if k = "forecast" then some xWrap else none

/-- A dial oracle that always fails with error 0. -/
def dialFail : String → Except DialErr Nat := fun _ => .error ⟨0⟩

/-- A dial oracle that always succeeds with client token 9. -/
def dialOk : String → Except DialErr Nat := fun _ => .ok 9

/-! ### Claim theorems -/

/-- C2: for an utterance with a user, if some (command, object) pair in
nested iteration order (tokens truncated at their first quote) has a
registry entry under the lowercased compound key, `getPkg` returns the
first such entry with that key as the route, not flagged last-route, with
the message (hence LastResponse) untouched — any fallback candidate is
ignored. -/
theorem c2_exact_compound_match (r : Registry) (m : Msg) (u : Nat) (k : String)
    (e : PkgWrapper) (hu : m.user = some u)
    (hfc : specFirstCompound r m.input.objects m.input.commands = some (k, e)) :
    getPkg r m = (.ok e k false, m) := by
  rw [getPkg_user_some r m u hu]
  dsimp only
  rw [cmdLoop_compound r m.input.objects k e m.input.commands ⟨none, "", "", false⟩ rfl hfc]
  simp

/-- Witness for C2: with "get_forecast" and the bare key "hello" both
registered, the utterance (commands ["hello", "get"], objects
["forecast"]) resolves to the exact match "get_forecast", ignoring the
bare-command fallback candidate "hello" recorded in the first pass. -/
theorem c2_exact_compound_match_witness :
    getPkg regTwo msgHelloGet = (.ok weatherWrap "get_forecast" false, msgHelloGet) := by
  have h := c2_exact_compound_match regTwo msgHelloGet 1 "get_forecast" weatherWrap
    (by decide) (by decide)
  revert h; decide

/-- C1 counterexample: registry `{"x" ↦ xWrap}`, utterance commands
["a"], objects ["x"], no LastResponse. No compound key matches and the
bare-object fallback candidate "x" is recorded, yet `getPkg` does not
return that candidate's entry: the bare-command miss of the same pass
clobbers the pointer, and the resolver falls through to the LastResponse
fallback, failing with the missing-package error (route reported "x"). -/
theorem c1_counterexample :
    getPkg regBareX msgBareObj = (.fail "x" false .missingPackage, msgBareObj)
    ∧ getPkg regBareX msgBareObj ≠ (.ok xWrap "x" false, msgBareObj) := by
  decide

/-- C1 as amended: the only fallback candidate `getPkg` can return is the
bare (quote-stripped, non-empty) key of the *last* command token. If no
compound key matches and that key is registered, `getPkg` returns it with
its entry, without consulting LastResponse (the message is untouched);
candidates recorded earlier are clobbered by later misses. -/
theorem c1_amended_last_command_fallback (r : Registry) (m : Msg) (u : Nat)
    (init : List String) (clast : String) (e : PkgWrapper)
    (hu : m.user = some u)
    (hcs : m.input.commands = init ++ [clast])
    (hfc : specFirstCompound r m.input.objects m.input.commands = none)
    (hne : stripQuote clast ≠ "")
    (he : r (stripQuote clast) = some e) :
    getPkg r m = (.ok e (stripQuote clast) false, m) := by
  rw [getPkg_user_some r m u hu]
  dsimp only
  rw [hcs]
  obtain ⟨hp, hsr⟩ :=
    cmdLoop_no_compound_last r m.input.objects clast init ⟨none, "", "", false⟩ rfl
      (hcs ▸ hfc)
  rw [hsr e he, if_pos (string_length_pos_of_ne _ hne), hp, he]

/-- Witness for amended C1: with only the bare key "get" registered, the
utterance (commands ["a", "get"], objects ["x"]) resolves to the bare key
of its last command, leaving its stale LastResponse untouched. -/
theorem c1_amended_last_command_fallback_witness :
    getPkg regBareGet msgTwoCmds = (.ok getWrap "get" false, msgTwoCmds) := by
  have h := c1_amended_last_command_fallback regBareGet msgTwoCmds 1 ["a"] "get" getWrap
    (by decide) (by decide) (by decide) (by decide) (by decide)
  revert h; decide

/-- C5: for an utterance with no associated user, `getPkg` resolves
unconditionally via the key "onboard": the registered entry with route
"onboard" when present, else the missing-package error — the utterance's
command and object tokens never enter the computation. -/
theorem c5_onboard_resolution (r : Registry) (m : Msg) (hu : m.user = none) :
    getPkg r m =
      ((match r "onboard" with
        | some pw => GetPkgRes.ok pw "onboard" false
        | none => GetPkgRes.fail "onboard" false .missingPackage), m) := by
  rw [getPkg_user_none r m hu]
  cases h : r "onboard" <;> simp

/-- Witness for C5: a userless utterance resolves to "onboard" when that
key is registered and fails with the missing-package error when it is
not, its command and object tokens notwithstanding. -/
theorem c5_onboard_resolution_witness :
    getPkg regOnboard msgNoUser = (.ok xWrap "onboard" false, msgNoUser)
    ∧ getPkg regGetForecast msgNoUser = (.fail "onboard" false .missingPackage, msgNoUser) := by
  constructor
  · have h := c5_onboard_resolution regOnboard msgNoUser (by decide)
    revert h; decide
  · have h := c5_onboard_resolution regGetForecast msgNoUser (by decide)
    revert h; decide

/-- C8: if dialing the registering skill's RPC endpoint at
`host:basePort+1` fails, `RegisterPackage` returns the error to the caller
and the registry is returned unchanged, with no warnings: the unreachable
skill is absent from the registry. -/
theorem c8_dial_failure_no_registration (dial : String → Except DialErr Nat) (p : Pkg)
    (r : Registry) (e : DialErr) (hd : dial (dialAddr p) = .error e) :
    registerPackage dial p r = (r, [], some e) := by
  unfold registerPackage
  rw [hd]

/-- Witness for C8: a failing dial leaves the concrete registry exactly as
it was and surfaces the dial error. -/
theorem c8_dial_failure_no_registration_witness :
    registerPackage dialFail weatherPkg regBareX = (regBareX, [], some ⟨0⟩) :=
  c8_dial_failure_no_registration dialFail weatherPkg regBareX ⟨0⟩ rfl

/-- C3 (code evaluation at the failing input): the utterance (commands
["hello"], objects []) with LastResponse route "get_forecast" is resolved
via the last-route fallback, yet `callPkg` invokes "Weather.Run", not
"Weather.FollowUp": the source returns the last-route flag `true` only on
its error path and `false` on the successful fallback, so the flag never
influences a dispatched call. -/
theorem c3_lastroute_dispatches_run :
    callPkg regGetForecast msgHello false =
      (.called "Weather.Run" "weather" "get_forecast",
       { msgHello with lastResponse := none, route := "get_forecast" }) := by
  decide

/-- C10: the compound lookup lowercases its key but the bare-object and
bare-command fallback lookups use the tokens with their original letter
case (quote-stripped only): with the mixed-case original tokens absent
from the registry and their lowercase forms registered, the utterance
gets an exact compound match when the lowercased compound key is present,
and no bare-key fallback otherwise — it falls through to the (empty)
LastResponse and fails. -/
theorem c10_bare_lookup_case_sensitive (r : Registry) (m : Msg) (u : Nat)
    (c o : String) (eo : PkgWrapper)
    (hu : m.user = some u) (hcs : m.input.commands = [c]) (hos : m.input.objects = [o])
    (hqc : stripQuote c = c) (hqo : stripQuote o = o)
    (_hbo : r (goToLower o) = some eo)
    (hoc : r o = none) (hcc : r c = none)
    (hlast : m.lastResponse = none) :
    (∀ e, r (goToLower (c ++ "_" ++ o)) = some e →
      getPkg r m = (.ok e (goToLower (c ++ "_" ++ o)) false, m))
    ∧ (r (goToLower (c ++ "_" ++ o)) = none →
      getPkg r m = (.fail (goToLower (c ++ "_" ++ o)) false .missingPackage, m)) := by
  constructor
  · intro e he2
    rw [getPkg_user_some r m u hu]
    dsimp only
    rw [hcs, hos]
    simp only [cmdLoop, objLoop, hqc, hqo, he2]
    simp
  · intro hnone
    rw [getPkg_user_some r m u hu]
    dsimp only
    rw [hcs, hos]
    simp only [cmdLoop, objLoop, hqc, hqo, hnone, hoc, hcc, hlast]
    simp

/-- Witness for C10: with only the lowercase bare key "forecast"
registered, the mixed-case utterance (commands ["Get"], objects
["Forecast"]) finds no bare-key fallback and fails, even though the
lowercased object token is a registered trigger. -/
theorem c10_bare_lookup_case_sensitive_witness :
    getPkg regBareForecast msgMixedCase =
      (.fail "get_forecast" false .missingPackage, msgMixedCase) := by
  have h := (c10_bare_lookup_case_sensitive regBareForecast msgMixedCase 1 "Get" "Forecast"
    xWrap (by decide) (by decide) (by decide) (by decide) (by decide) (by decide)
    (by decide) (by decide) (by decide)).2 (by decide)
  revert h; decide

/-- C4: one-shot consumption of LastResponse. If a resolution attempt on
`m` consumed the LastResponse (it was present before and cleared after),
then a second resolution attempt on the resulting message — same user,
same input, no new LastResponse — fails with the missing-package error.
(`GetLastResponse` is modelled from the spec as the read-only fetch of the
persisted last response; see `Msg`.) -/
theorem c4_lastresponse_one_shot (r : Registry) (m : Msg) (lr : Resp)
    (h1 : m.lastResponse = some lr)
    (h2 : ((getPkg r m).2).lastResponse = none) :
    ∃ rt, getPkg r ((getPkg r m).2) =
      (.fail rt false .missingPackage, (getPkg r m).2) := by
  cases hu : m.user with
  | none =>
    rw [getPkg_user_none r m hu] at h2
    cases ho : r "onboard" <;> rw [ho] at h2 <;> dsimp only at h2 <;>
      rw [h1] at h2 <;> exact Option.noConfusion h2
  | some u =>
    rw [getPkg_user_some r m u hu] at h2 ⊢
    dsimp only at h2 ⊢
    cases hp : (cmdLoop r m.input.objects ⟨none, "", "", false⟩ m.input.commands).p with
    | some pw =>
      rw [hp] at h2
      dsimp only at h2
      rw [h1] at h2
      exact Option.noConfusion h2
    | none =>
      rw [hp] at h2
      rw [h1] at h2 ⊢
      dsimp only at h2 ⊢
      cases hlr : r lr.route with
      | none =>
        rw [hlr] at h2
        dsimp only at h2
        rw [h1] at h2
        exact Option.noConfusion h2
      | some pw =>
        dsimp only
        have hu2 : ({ m with lastResponse := none } : Msg).user = some u := hu
        rw [getPkg_user_some r { m with lastResponse := none } u hu2]
        dsimp only
        rw [hp]
        exact ⟨_, rfl⟩

/-- Witness for C4: the LastResponse route "get_forecast" resolves the
first attempt and is cleared; the identical second attempt fails with the
missing-package error. -/
theorem c4_lastresponse_one_shot_witness :
    ∃ rt, getPkg regGetForecast ((getPkg regGetForecast msgHello).2) =
      (.fail rt false .missingPackage, (getPkg regGetForecast msgHello).2) :=
  c4_lastresponse_one_shot regGetForecast msgHello ⟨"get_forecast", "s"⟩ (by decide) (by decide)

/-- On every successful return of `getPkg` the last-route flag is `false`:
the source returns `true` only together with `ErrMissingPackage`. -/
theorem getPkg_ok_flag_false (r : Registry) (m : Msg) (pw : PkgWrapper) (route : String)
    (b : Bool) (m1 : Msg) (h : getPkg r m = (.ok pw route b, m1)) : b = false := by
  unfold getPkg at h
  cases hu : m.user with
  | none =>
    rw [hu] at h
    cases ho : r "onboard" <;> rw [ho] at h <;> simp_all
  | some u =>
    rw [hu] at h
    dsimp only at h
    cases hp : (cmdLoop r m.input.objects ⟨none, "", "", false⟩ m.input.commands).p with
    | some pw2 => rw [hp] at h; simp_all
    | none =>
      rw [hp] at h
      cases hl : m.lastResponse with
      | none => rw [hl] at h; simp_all
      | some lr =>
        rw [hl] at h
        dsimp only at h
        cases hr2 : r lr.route with
        | none => rw [hr2] at h; simp_all
        | some pw2 => rw [hr2] at h; simp_all

/-- C6: for every successfully resolved utterance, `callPkg` invokes the
remote procedure named by the title-cased skill name suffixed ".FollowUp"
exactly when the utterance carries zero command tokens or the caller's
context-already-added flag is set, and ".Run" otherwise, stamping the
resolved route onto the message before the call. (The last-route flag
cannot contribute: it is `false` on every successful resolution, by
`getPkg_ok_flag_false`.) -/
theorem c6_dispatch_mode (r : Registry) (m : Msg) (ctx : Bool) (pw : PkgWrapper)
    (route : String) (b : Bool) (m1 : Msg)
    (h : getPkg r m = (.ok pw route b, m1)) :
    callPkg r m ctx =
      (.called (goTitle pw.p.config.name ++
          (if ctx || m1.input.commands.length == 0 then ".FollowUp" else ".Run"))
        pw.p.config.name route,
       { m1 with route := route }) := by
  have hb := getPkg_ok_flag_false r m pw route b m1 h
  subst hb
  unfold callPkg
  rw [h]
  simp only [Bool.or_false]
  split <;> rfl

/-- Witness for C6: for the exact-match utterance (commands ["get"],
objects ["forecast"]), `callPkg` issues "Weather.Run" when the context
flag is clear and "Weather.FollowUp" when it is set, each time stamping
route "get_forecast". -/
theorem c6_dispatch_mode_witness :
    callPkg regGetForecast msgGetForecast false =
      (.called "Weather.Run" "weather" "get_forecast",
       { msgGetForecast with route := "get_forecast" })
    ∧ callPkg regGetForecast msgGetForecast true =
      (.called "Weather.FollowUp" "weather" "get_forecast",
       { msgGetForecast with route := "get_forecast" }) := by
  constructor
  · have h := c6_dispatch_mode regGetForecast msgGetForecast false weatherWrap
      "get_forecast" false msgGetForecast (by decide)
    revert h; decide
  · have h := c6_dispatch_mode regGetForecast msgGetForecast true weatherWrap
      "get_forecast" false msgGetForecast (by decide)
    revert h; decide

/-! ### Registration fold lemmas -/

/-- Every insertion during one registration writes the same wrapper, so a
key already mapping to it keeps mapping to it through the object loop. -/
theorem objfold_get_stable (p : Pkg) (cl : Nat) (c : String) (k : String) :
    ∀ (os : List String) (a : Registry × List (String × String)),
      a.1 k = some (regWrap p cl) →
      ((os.foldl (insertObj p cl c) a).1) k = some (regWrap p cl) := by
  intro os
  induction os with
  | nil => intro a h; exact h
  | cons o os ih =>
    intro a h
    simp only [List.foldl_cons]
    apply ih
    unfold insertObj insertKey
    dsimp only
    by_cases hk : k = goToLower (c ++ "_" ++ o)
    · rw [if_pos hk]
    · rw [if_neg hk]; exact h

/-- As `objfold_get_stable`, through the command loop. -/
theorem cmdfold_get_stable (p : Pkg) (cl : Nat) (k : String) :
    ∀ (l : List String) (a : Registry × List (String × String)),
      a.1 k = some (regWrap p cl) →
      ((l.foldl (insertCmd p cl) a).1) k = some (regWrap p cl) := by
  intro l
  induction l with
  | nil => intro a h; exact h
  | cons c0 l ih =>
    intro a h
    simp only [List.foldl_cons]
    apply ih
    unfold insertCmd insertKey
    dsimp only
    by_cases hk : k = goToLower c0
    · rw [if_pos hk]
    · rw [if_neg hk]
      exact objfold_get_stable p cl (goToLower c0) k p.trigger.objects a h

/-- After the command loop has processed a command in the list, its
lowercased bare key maps to this registration's wrapper. -/
theorem cmdfold_bare_inserted (p : Pkg) (cl : Nat) :
    ∀ (l : List String) (a : Registry × List (String × String)) (c : String), c ∈ l →
      ((l.foldl (insertCmd p cl) a).1) (goToLower c) = some (regWrap p cl) := by
  intro l
  induction l with
  | nil => intro a c hc; exact absurd hc (List.not_mem_nil c)
  | cons c0 l ih =>
    intro a c hc
    simp only [List.foldl_cons]
    cases List.mem_cons.mp hc with
    | inl h =>
      subst h
      apply cmdfold_get_stable
      unfold insertCmd insertKey
      dsimp only
      rw [if_pos rfl]
    | inr h => exact ih _ c h

/-- After the object loop has processed an object, the compound key with
the fixed command maps to this registration's wrapper. -/
theorem objfold_compound_inserted (p : Pkg) (cl : Nat) (c : String) :
    ∀ (os : List String) (a : Registry × List (String × String)) (o : String), o ∈ os →
      ((os.foldl (insertObj p cl c) a).1) (goToLower (c ++ "_" ++ o)) = some (regWrap p cl) := by
  intro os
  induction os with
  | nil => intro a o ho; exact absurd ho (List.not_mem_nil o)
  | cons o0 os ih =>
    intro a o ho
    simp only [List.foldl_cons]
    cases List.mem_cons.mp ho with
    | inl h =>
      subst h
      apply objfold_get_stable
      unfold insertObj insertKey
      dsimp only
      rw [if_pos rfl]
    | inr h => exact ih _ o h

/-- After the command loop has processed a command, every lowercased
compound key built from it and a trigger object maps to this
registration's wrapper. -/
theorem cmdfold_compound_inserted (p : Pkg) (cl : Nat) :
    ∀ (l : List String) (a : Registry × List (String × String)) (c o : String),
      c ∈ l → o ∈ p.trigger.objects →
      ((l.foldl (insertCmd p cl) a).1) (goToLower (goToLower c ++ "_" ++ o))
        = some (regWrap p cl) := by
  intro l
  induction l with
  | nil => intro a c o hc _; exact absurd hc (List.not_mem_nil c)
  | cons c0 l ih =>
    intro a c o hc ho
    simp only [List.foldl_cons]
    cases List.mem_cons.mp hc with
    | inl h =>
      subst h
      apply cmdfold_get_stable
      unfold insertCmd insertKey
      dsimp only
      by_cases hk : goToLower (goToLower c ++ "_" ++ o) = goToLower c
      · rw [if_pos hk]
      · rw [if_neg hk]
        exact objfold_compound_inserted p cl (goToLower c) p.trigger.objects a o ho
    | inr h => exact ih _ c o h ho

/-- Warnings produced by the object loop are compound-key warnings naming
the registering skill. -/
theorem objfold_warn_shape (p : Pkg) (cl : Nat) (c : String) :
    ∀ (os : List String) (a : Registry × List (String × String)) (w : String × String),
      w ∈ (os.foldl (insertObj p cl c) a).2 →
      w ∈ a.2 ∨ ∃ o ∈ os, w = (p.config.name, goToLower (c ++ "_" ++ o)) := by
  intro os
  induction os with
  | nil => intro a w hw; exact Or.inl hw
  | cons o0 os ih =>
    intro a w hw
    simp only [List.foldl_cons] at hw
    cases ih _ w hw with
    | inl h =>
      unfold insertObj at h
      dsimp only at h
      by_cases hs : ((a.1 (goToLower (c ++ "_" ++ o0))).isSome : Bool)
      · rw [if_pos hs] at h
        cases List.mem_append.mp h with
        | inl h2 => exact Or.inl h2
        | inr h2 =>
          refine Or.inr ⟨o0, List.mem_cons_self o0 os, ?_⟩
          simpa using h2
      · rw [if_neg hs] at h
        exact Or.inl h
    | inr h =>
      obtain ⟨o, ho, hw2⟩ := h
      exact Or.inr ⟨o, List.mem_cons_of_mem o0 ho, hw2⟩

/-- Warnings produced by the command loop are compound-key warnings naming
the registering skill; the bare-command insertion never warns. -/
theorem cmdfold_warn_shape (p : Pkg) (cl : Nat) :
    ∀ (l : List String) (a : Registry × List (String × String)) (w : String × String),
      w ∈ (l.foldl (insertCmd p cl) a).2 →
      w ∈ a.2 ∨ ∃ c ∈ l, ∃ o ∈ p.trigger.objects,
        w = (p.config.name, goToLower (goToLower c ++ "_" ++ o)) := by
  intro l
  induction l with
  | nil => intro a w hw; exact Or.inl hw
  | cons c0 l ih =>
    intro a w hw
    simp only [List.foldl_cons] at hw
    cases ih _ w hw with
    | inl h =>
      have h2 : w ∈ (p.trigger.objects.foldl (insertObj p cl (goToLower c0)) a).2 := h
      cases objfold_warn_shape p cl (goToLower c0) p.trigger.objects a w h2 with
      | inl h3 => exact Or.inl h3
      | inr h3 =>
        obtain ⟨o, ho, hw2⟩ := h3
        exact Or.inr ⟨c0, List.mem_cons_self c0 l, o, ho, hw2⟩
    | inr h =>
      obtain ⟨c, hc, o, ho, hw2⟩ := h
      exact Or.inr ⟨c, List.mem_cons_of_mem c0 hc, o, ho, hw2⟩

/-- The object loop never removes a key. -/
theorem objfold_isSome_mono (p : Pkg) (cl : Nat) (c : String) (k : String) :
    ∀ (os : List String) (a : Registry × List (String × String)),
      (a.1 k).isSome → (((os.foldl (insertObj p cl c) a).1) k).isSome := by
  intro os
  induction os with
  | nil => intro a h; exact h
  | cons o os ih =>
    intro a h
    simp only [List.foldl_cons]
    apply ih
    unfold insertObj insertKey
    dsimp only
    by_cases hk : k = goToLower (c ++ "_" ++ o)
    · rw [if_pos hk]; rfl
    · rw [if_neg hk]; exact h

/-- The command loop never removes a key. -/
theorem cmdfold_isSome_mono (p : Pkg) (cl : Nat) (k : String) :
    ∀ (l : List String) (a : Registry × List (String × String)),
      (a.1 k).isSome → (((l.foldl (insertCmd p cl) a).1) k).isSome := by
  intro l
  induction l with
  | nil => intro a h; exact h
  | cons c0 l ih =>
    intro a h
    simp only [List.foldl_cons]
    apply ih
    unfold insertCmd insertKey
    dsimp only
    by_cases hk : k = goToLower c0
    · rw [if_pos hk]; rfl
    · rw [if_neg hk]
      exact objfold_isSome_mono p cl (goToLower c0) k p.trigger.objects a h

/-- The object loop never drops a warning. -/
theorem objfold_warn_mono (p : Pkg) (cl : Nat) (c : String) (w : String × String) :
    ∀ (os : List String) (a : Registry × List (String × String)),
      w ∈ a.2 → w ∈ (os.foldl (insertObj p cl c) a).2 := by
  intro os
  induction os with
  | nil => intro a h; exact h
  | cons o os ih =>
    intro a h
    simp only [List.foldl_cons]
    apply ih
    unfold insertObj
    dsimp only
    by_cases hs : ((a.1 (goToLower (c ++ "_" ++ o))).isSome : Bool)
    · rw [if_pos hs]; exact List.mem_append_left _ h
    · rw [if_neg hs]; exact h

/-- The command loop never drops a warning. -/
theorem cmdfold_warn_mono (p : Pkg) (cl : Nat) (w : String × String) :
    ∀ (l : List String) (a : Registry × List (String × String)),
      w ∈ a.2 → w ∈ (l.foldl (insertCmd p cl) a).2 := by
  intro l
  induction l with
  | nil => intro a h; exact h
  | cons c0 l ih =>
    intro a h
    simp only [List.foldl_cons]
    apply ih
    exact objfold_warn_mono p cl (goToLower c0) w p.trigger.objects a h

/-- A compound key already present when its object is processed produces a
warning naming the skill and the key. -/
theorem objfold_warn_new (p : Pkg) (cl : Nat) (c : String) :
    ∀ (os : List String) (a : Registry × List (String × String)) (o : String), o ∈ os →
      ((a.1 (goToLower (c ++ "_" ++ o))).isSome) →
      (p.config.name, goToLower (c ++ "_" ++ o)) ∈ (os.foldl (insertObj p cl c) a).2 := by
  intro os
  induction os with
  | nil => intro a o ho _; exact absurd ho (List.not_mem_nil o)
  | cons o0 os ih =>
    intro a o ho hs
    simp only [List.foldl_cons]
    cases List.mem_cons.mp ho with
    | inl h =>
      subst h
      apply objfold_warn_mono
      unfold insertObj
      dsimp only
      rw [if_pos hs]
      exact List.mem_append_right _ (List.mem_singleton.mpr rfl)
    | inr h =>
      apply ih _ o h
      unfold insertObj insertKey
      dsimp only
      by_cases hk : goToLower (c ++ "_" ++ o) = goToLower (c ++ "_" ++ o0)
      · rw [if_pos hk]; rfl
      · rw [if_neg hk]; exact hs

/-- A compound key already present before its command is processed
produces a warning naming the skill and the key. -/
theorem cmdfold_warn_new (p : Pkg) (cl : Nat) :
    ∀ (l : List String) (a : Registry × List (String × String)) (c o : String),
      c ∈ l → o ∈ p.trigger.objects →
      ((a.1 (goToLower (goToLower c ++ "_" ++ o))).isSome) →
      (p.config.name, goToLower (goToLower c ++ "_" ++ o)) ∈ (l.foldl (insertCmd p cl) a).2 := by
  intro l
  induction l with
  | nil => intro a c o hc _ _; exact absurd hc (List.not_mem_nil c)
  | cons c0 l ih =>
    intro a c o hc ho hs
    simp only [List.foldl_cons]
    cases List.mem_cons.mp hc with
    | inl h =>
      subst h
      apply cmdfold_warn_mono
      exact objfold_warn_new p cl (goToLower c) p.trigger.objects a o ho hs
    | inr h =>
      apply ih _ c o h ho
      unfold insertCmd insertKey
      dsimp only
      by_cases hk : goToLower (goToLower c ++ "_" ++ o) = goToLower c0
      · rw [if_pos hk]; rfl
      · rw [if_neg hk]
        exact objfold_isSome_mono p cl (goToLower c0) _ p.trigger.objects a hs

/-- A key whose registry value is changed by the object loop is a compound
key of the fixed command and one of the objects processed. -/
theorem objfold_changed_shape (p : Pkg) (cl : Nat) (c : String) (k : String) :
    ∀ (os : List String) (a : Registry × List (String × String)),
      ((os.foldl (insertObj p cl c) a).1) k ≠ a.1 k →
      ∃ o ∈ os, k = goToLower (c ++ "_" ++ o) := by
  intro os
  induction os with
  | nil => intro a h; exact absurd rfl h
  | cons o os ih =>
    intro a h
    simp only [List.foldl_cons] at h
    by_cases hk : k = goToLower (c ++ "_" ++ o)
    · exact ⟨o, List.mem_cons_self o os, hk⟩
    · have hstep : (insertObj p cl c a o).1 k = a.1 k := by
        unfold insertObj insertKey
        dsimp only
        rw [if_neg hk]
      rw [← hstep] at h
      obtain ⟨o2, ho2, hk2⟩ := ih _ h
      exact ⟨o2, List.mem_cons_of_mem o ho2, hk2⟩

/-- A key whose registry value is changed by the command loop is a bare
command key or a compound key derived from a processed command. -/
theorem cmdfold_changed_shape (p : Pkg) (cl : Nat) :
    ∀ (l : List String) (a : Registry × List (String × String)) (k : String),
      ((l.foldl (insertCmd p cl) a).1) k ≠ a.1 k →
      (∃ c ∈ l, k = goToLower c)
      ∨ (∃ c ∈ l, ∃ o ∈ p.trigger.objects, k = goToLower (goToLower c ++ "_" ++ o)) := by
  intro l
  induction l with
  | nil => intro a k h; exact absurd rfl h
  | cons c0 l ih =>
    intro a k h
    simp only [List.foldl_cons] at h
    by_cases hk : k = goToLower c0
    · exact Or.inl ⟨c0, List.mem_cons_self c0 l, hk⟩
    · by_cases hobj :
        ((p.trigger.objects.foldl (insertObj p cl (goToLower c0)) a).1) k = a.1 k
      · have hstep : (insertCmd p cl a c0).1 k = a.1 k := by
          unfold insertCmd insertKey
          dsimp only
          rw [if_neg hk]
          exact hobj
        rw [← hstep] at h
        cases ih _ k h with
        | inl h2 =>
          obtain ⟨c, hc, hk2⟩ := h2
          exact Or.inl ⟨c, List.mem_cons_of_mem c0 hc, hk2⟩
        | inr h2 =>
          obtain ⟨c, hc, o, ho, hk2⟩ := h2
          exact Or.inr ⟨c, List.mem_cons_of_mem c0 hc, o, ho, hk2⟩
      · obtain ⟨o, ho, hk2⟩ := objfold_changed_shape p cl (goToLower c0) k p.trigger.objects a hobj
        exact Or.inr ⟨c0, List.mem_cons_self c0 l, o, ho, hk2⟩

/-- Skill "alpha": trigger commands ["get"], objects ["x"]. -/
def alphaPkg : Pkg := ⟨⟨"alpha", "h", 1⟩, ⟨["get"], ["x"]⟩⟩

/-- Skill "beta": trigger commands ["get"], objects ["y"] — its bare
command key collides with alpha's. -/
def betaPkg : Pkg := ⟨⟨"beta", "h", 2⟩, ⟨["get"], ["y"]⟩⟩

/-- The registry after registering "alpha" into the empty registry. -/
def regAfterAlpha : Registry := (registerPackage dialOk alphaPkg (fun _ => none)).1

/-! ### Claim theorems about registration -/

/-- C7 counterexample: registering "alpha" (trigger get/x) and then
"beta" (trigger get/y) makes the bare command key "get" collide; the
second registration overwrites it but emits no warning at all — the
claim's promised warning naming the skill and the colliding bare key is
absent. -/
theorem c7_counterexample :
    regAfterAlpha "get" = some (regWrap alphaPkg 9)
    ∧ (registerPackage dialOk betaPkg regAfterAlpha).2.1 = []
    ∧ (registerPackage dialOk betaPkg regAfterAlpha).1 "get" = some (regWrap betaPkg 9) := by
  decide

/-- C7 as amended: on a successful dial, registration never fails and the
last writer wins for every key it derives — each lowercased bare command
key and each lowercased compound key maps to the new registration's entry
afterwards — but the duplicate warning (naming the skill and the
colliding key) is emitted only for compound keys: every emitted warning
names a compound key, and a compound key present before registration is
warned about; bare-command collisions are overwritten silently. -/
theorem c7_amended_overwrite_and_warnings (dial : String → Except DialErr Nat) (p : Pkg)
    (r : Registry) (cl : Nat) (hd : dial (dialAddr p) = .ok cl) :
    (registerPackage dial p r).2.2 = none
    ∧ (∀ c ∈ p.trigger.commands,
        (registerPackage dial p r).1 (goToLower c) = some (regWrap p cl))
    ∧ (∀ c ∈ p.trigger.commands, ∀ o ∈ p.trigger.objects,
        (registerPackage dial p r).1 (goToLower (goToLower c ++ "_" ++ o))
          = some (regWrap p cl))
    ∧ (∀ w ∈ (registerPackage dial p r).2.1, w.1 = p.config.name
        ∧ ∃ c ∈ p.trigger.commands, ∃ o ∈ p.trigger.objects,
            w.2 = goToLower (goToLower c ++ "_" ++ o))
    ∧ (∀ c ∈ p.trigger.commands, ∀ o ∈ p.trigger.objects,
        (r (goToLower (goToLower c ++ "_" ++ o))).isSome →
        (p.config.name, goToLower (goToLower c ++ "_" ++ o))
          ∈ (registerPackage dial p r).2.1) := by
  have hreg : registerPackage dial p r =
      ((p.trigger.commands.foldl (insertCmd p cl) (r, [])).1,
       (p.trigger.commands.foldl (insertCmd p cl) (r, [])).2, none) := by
    unfold registerPackage
    rw [hd]
  rw [hreg]
  dsimp only
  refine ⟨rfl, ?_, ?_, ?_, ?_⟩
  · intro c hc
    exact cmdfold_bare_inserted p cl p.trigger.commands (r, []) c hc
  · intro c hc o ho
    exact cmdfold_compound_inserted p cl p.trigger.commands (r, []) c o hc ho
  · intro w hw
    cases cmdfold_warn_shape p cl p.trigger.commands (r, []) w hw with
    | inl h => exact absurd h (List.not_mem_nil w)
    | inr h =>
      obtain ⟨c, hc, o, ho, hw2⟩ := h
      subst hw2
      exact ⟨rfl, c, hc, o, ho, rfl⟩
  · intro c hc o ho hs
    exact cmdfold_warn_new p cl p.trigger.commands (r, []) c o hc ho hs

/-- Witness for amended C7: registering "beta" over the registry left by
"alpha" succeeds; the clashing bare key "get" now maps to beta's entry,
the compound key "get_y" maps to beta's entry, and every warning (there
are none here, as no compound key collided) is of compound shape. -/
theorem c7_amended_overwrite_and_warnings_witness :
    (registerPackage dialOk betaPkg regAfterAlpha).2.2 = none
    ∧ (registerPackage dialOk betaPkg regAfterAlpha).1 "get" = some (regWrap betaPkg 9)
    ∧ (registerPackage dialOk betaPkg regAfterAlpha).1 "get_y" = some (regWrap betaPkg 9) := by
  have h := c7_amended_overwrite_and_warnings dialOk betaPkg regAfterAlpha 9 rfl
  refine ⟨h.1, ?_, ?_⟩
  · have h2 := h.2.1 "get" (by decide)
    revert h2; decide
  · have h3 := h.2.2.1 "get" (by decide) "y" (by decide)
    revert h3; decide

/-- C9: every key a successful registration changes is either the
lowercased bare form of one of the skill's command tokens or the
lowercased compound "command_object" form of a command and an object
token — bare object keys are never inserted. -/
theorem c9_registered_key_shapes (dial : String → Except DialErr Nat) (p : Pkg)
    (r : Registry) (cl : Nat) (k : String) (hd : dial (dialAddr p) = .ok cl)
    (hk : (registerPackage dial p r).1 k ≠ r k) :
    (∃ c ∈ p.trigger.commands, k = goToLower c)
    ∨ (∃ c ∈ p.trigger.commands, ∃ o ∈ p.trigger.objects,
        k = goToLower (goToLower c ++ "_" ++ o)) := by
  have hreg : (registerPackage dial p r).1 =
      (p.trigger.commands.foldl (insertCmd p cl) (r, [])).1 := by
    unfold registerPackage
    rw [hd]
  rw [hreg] at hk
  exact cmdfold_changed_shape p cl p.trigger.commands (r, []) k hk

/-- Witness for C9: the single key the "alpha" registration changes at
"get_x" has compound shape. -/
theorem c9_registered_key_shapes_witness :
    (∃ c ∈ alphaPkg.trigger.commands, "get_x" = goToLower c)
    ∨ (∃ c ∈ alphaPkg.trigger.commands, ∃ o ∈ alphaPkg.trigger.objects,
        "get_x" = goToLower (goToLower c ++ "_" ++ o)) :=
  c9_registered_key_shapes dialOk alphaPkg (fun _ => none) 9 "get_x" rfl (by decide)

end Abot
